import Mathlib

/-!
Shallow embedding of the `tkb_map` open-addressing hash table
(`src/hashmap.h`, `TKB_MAP_IMPLEMENTATION` section) and proofs about it.

Modelling conventions:
* `size_t` values are modelled as `Nat`; the places where the C code relies
  on 64-bit wraparound (`v--` on `0` in `round_up_to_nearest_power_of_2`,
  the probe counter `--counter` when `count == 0`) are modelled with an
  explicit `% 2^64` respectively an explicit `2^64` iteration bound.
* Keys and values are type-erased byte blocks in C; the engine only ever
  moves them with `memcpy` and consults them through the user-supplied
  `hash_function` / `compare_function`.  They are modelled as opaque `Nat`
  scalars, the hash function as an explicit `Nat → Nat` argument, and the
  comparison function as equality on the scalars (`compare_key(a,b) == 0`
  iff the keys are equal), which is the contract the surrounding code
  assumes of a user comparison function.
* The `float` arithmetic in `ceil`, `hashmap_grow_capacity`,
  `hashmap_index_capacity`, `hashmap_new`, `hashmap_set_load_factor` and
  `hashmap_set_grow_factor` is modelled as exact rational arithmetic `ℚ`.
  All concrete inputs appearing in theorems below (`0.75`, `1.0`, `1.5`,
  factors that are multiples of `1/100`, capacities below `2^24`) are
  exactly representable, so the model and the `float` code agree on them.
* The allocator capability is a pointer stored in the table in C and only
  ever used as `allocate(allocator, size)`; it is modelled as an explicit
  `alloc : Nat → Bool` argument (`true` = allocation of that many bytes
  succeeds) passed to the operations that allocate.
* An index-array entry occupies `index_stride` bytes; reads go through
  `*(size_t*)… & index_mask` which (on the little-endian layout the code
  assumes) recovers exactly the entry's own bytes, and writes `memcpy` the
  low `index_stride` bytes, i.e. store the value modulo `index_mask + 1`.
  The model stores the masked value directly in a `List Nat` of length
  `index_capacity`.
* `hashmap_set` / `hashmap_grow` recurse into each other in C with no
  termination guarantee; the model adds an explicit `fuel` argument and
  returns `none` when the recursion depth exceeds the fuel, so divergence
  of the C code shows up as `∀ fuel, … = none`.
* `sizeof(HashMapHeader)` (a pointer, five `size_t`, two `u8`, three `u16`,
  padded to 8-byte alignment) is 48 bytes; it only enters the model through
  the size passed to the allocator.
-/

namespace TkbMap

/-! ### Layout helpers (`src/hashmap.h`, lines 111–159, 179–186)

The C code computes these with `float` arithmetic and the helper
`static inline size_t ceil(float x) { return (size_t)x + 1; }` (the cast
truncates the nonnegative argument, i.e. takes the floor, so the code's
`ceil` is floor-plus-one, not a mathematical ceiling).  The model computes
the same quantities with exact integer arithmetic —
`⌊(a / b) · c⌋ + 1 = a·c / b + 1` in exact arithmetic — and the
`…_models_float` lemmas below record that the integer definitions agree
with the exact-rational reading of the float formulas.  (All concrete
arguments appearing in theorems in this file are small enough for the
32-bit `float` computation to be exact as well.) -/

/-- The six cumulative `v |= v >> 1; … ; v |= v >> 32;` steps of
`round_up_to_nearest_power_of_2` (lines 117–122), which set every bit below
the most significant set bit. -/
def bit_smear (v : Nat) : Nat :=
  let v := v ||| (v >>> 1)
  let v := v ||| (v >>> 2)
  let v := v ||| (v >>> 4)
  let v := v ||| (v >>> 8)
  let v := v ||| (v >>> 16)
  v ||| (v >>> 32)

/-- `round_up_to_nearest_power_of_2` (lines 115–126): `v--`, the six
or-shift smear steps, `v++`, all on `size_t` (hence the `% 2^64` at the
decrement/increment, the only places 64-bit wraparound can occur). -/
def round_up_to_nearest_power_of_2 (v : Nat) : Nat :=
  (bit_smear ((v + (2 ^ 64 - 1)) % 2 ^ 64) + 1) % 2 ^ 64

/-- `hashmap_index_stride` (lines 142–147). -/
def hashmap_index_stride (capacity : Nat) : Nat :=
  if capacity < 128 then 1
  else if capacity < 32768 then 2
  else if capacity < 2147483648 then 4
  else 8

/-- `hashmap_index_mask` (lines 149–154). -/
def hashmap_index_mask (capacity : Nat) : Nat :=
  if capacity < 128 then 0xFF
  else if capacity < 32768 then 0xFFFF
  else if capacity < 2147483648 then 0xFFFFFFFF
  else 0xFFFFFFFFFFFFFFFF

/-- `hashmap_index_capacity` (lines 156–159):
`round_up_to_nearest_power_of_2(ceil((100.0f / load_factor) * capacity))`,
in exact arithmetic `⌊(100 / lf) · cap⌋ + 1 = 100·cap / lf + 1` (see
`hashmap_index_capacity_models_float`). -/
def hashmap_index_capacity (capacity : Nat) (load_factor : Nat) : Nat :=
  round_up_to_nearest_power_of_2 (100 * capacity / load_factor + 1)

/-- `hashmap_grow_capacity` (lines 132–135):
`ceil((grow_factor / 100.0f + 1.0f) * capacity)`, in exact arithmetic
`⌊(gf/100 + 1) · cap⌋ + 1 = cap·(100 + gf) / 100 + 1` (see
`hashmap_grow_capacity_models_float`). -/
def hashmap_grow_capacity (capacity : Nat) (grow_factor : Nat) : Nat :=
  capacity * (100 + grow_factor) / 100 + 1

/-- `sizeof(HashMapHeader)`: one pointer, five `size_t`, two `u8`,
three `u16`, padded to 8-byte alignment → 48 bytes. -/
def HashMapHeaderSize : Nat := 48

/-- `hashmap_total_size` (lines 179–186). -/
def hashmap_total_size (capacity index_capacity index_stride key_stride value_stride : Nat) : Nat :=
  HashMapHeaderSize + index_capacity * index_stride +
    capacity * key_stride + capacity * value_stride

/-! ### The table state (`HashMapHeader` plus the three trailing arrays) -/

structure HashMap where
  count : Nat
  capacity : Nat
  index_capacity : Nat
  index_mask : Nat
  load_factor : Nat
  grow_factor : Nat
  key_stride : Nat
  value_stride : Nat
  index_stride : Nat
  indices : List Nat
  keys : List Nat
  values : List Nat
deriving DecidableEq

/-- Structural well-formedness of a table: the arrays have the lengths the
header promises, the index capacity is nonzero, the dense count fits the
capacity, every dense slot number is strictly below the DELETED sentinel
`index_mask - 1`, and every occupied index entry points into the live dense
prefix `[0, count)`.  Every table reachable through the public API
satisfies this. -/
def WF (m : HashMap) : Prop :=
  m.indices.length = m.index_capacity ∧
  m.keys.length = m.capacity ∧
  m.values.length = m.capacity ∧
  1 ≤ m.index_capacity ∧
  m.count ≤ m.capacity ∧
  m.capacity < m.index_mask - 1 ∧
  ∀ i, i < m.index_capacity →
    m.indices.getD i 0 < m.index_mask - 1 → m.indices.getD i 0 < m.count

instance (m : HashMap) : Decidable (WF m) := by
  unfold WF; infer_instance

/-! ### The shared probe loop of `hashmap_get` / `hashmap_set` / `hashmap_del`

All three operations run the same `do { … } while (--counter)` loop over
`size_t counter = count`: the body executes `count` times when
`count ≥ 1`, and (because `--counter` wraps) `2^64` times when
`count == 0`. -/

/-- Number of times the probe loop body executes for a given `count`. -/
def probe_iterations (count : Nat) : Nat :=
  if count = 0 then 2 ^ 64 else count

inductive ProbeResult where
  /-- An occupied bucket whose dense slot holds a key comparing equal. -/
  | found (index slot : Nat)
  /-- A bucket holding EMPTY or DELETED (`slot >= deleted_slot`). -/
  | available (index : Nat)
  /-- The loop ran out of its `counter` iterations. -/
  | exhausted
deriving DecidableEq

/-- One probe loop (the common body of lines 280–294 / 319–356 / 382–442):
`index = hash & hash_mask`, read the index entry, stop on
`slot >= deleted_slot`, compare keys on an occupied entry, else
`hash = (hash + 1) & hash_mask` and continue. -/
def hashmap_probe (m : HashMap) (k : Nat) : Nat → Nat → ProbeResult
  | 0, _ => .exhausted
  | counter + 1, hash =>
    let hash_mask := m.index_capacity - 1
    let index := hash &&& hash_mask
    let slot := m.indices.getD index 0
    if m.index_mask - 1 ≤ slot then .available index
    else if m.keys.getD slot 0 = k then .found index slot
    else hashmap_probe m k counter ((hash + 1) &&& hash_mask)

/-- `hashmap_get` (lines 261–297): returns the value of the found slot,
`NULL` on an EMPTY **or DELETED** bucket (`slot >= deleted_slot`), `NULL`
on counter exhaustion. -/
def hashmap_get (m : HashMap) (k : Nat) (hash_key : Nat → Nat) : Option Nat :=
  match hashmap_probe m k (probe_iterations m.count) (hash_key k) with
  | .found _ slot => some (m.values.getD slot 0)
  | _ => none

/-- The insertion performed by `hashmap_set` on an available bucket
(lines 329–332): `i = count++`, write `i` into the bucket (low
`index_stride` bytes, i.e. mod `index_mask + 1`), copy key and value into
dense slot `i`. -/
def hashmap_insert_at (m : HashMap) (index k v : Nat) : HashMap :=
  let i := m.count
  { m with
    indices := m.indices.set index (i % (m.index_mask + 1)),
    keys := m.keys.set i k,
    values := m.values.set i v,
    count := i + 1 }

/-- The body of `hashmap_grow` (lines 449–499), parameterized by the
`hashmap_set` it reinserts through (in C the two functions are mutually
recursive; the model closes the loop through the fuel argument of
`hashmap_set`, and `hashmap_grow` below ties the knot): compute the new
layout, allocate (failure → return with the table untouched), build the
fresh table with all index entries EMPTY, reinsert the `count` live dense
entries through the given setter.  `none` only when a reinsertion runs out
of fuel. -/
def hashmap_grow_core (alloc : Nat → Bool)
    (setf : HashMap → Nat → Nat → Option (Nat × HashMap)) (m : HashMap) :
    Option HashMap :=
  let new_capacity := hashmap_grow_capacity m.capacity m.grow_factor
  let new_index_capacity := hashmap_index_capacity new_capacity m.load_factor
  let new_index_stride := hashmap_index_stride new_index_capacity
  let new_index_mask := hashmap_index_mask new_index_capacity
  let new_total_size := hashmap_total_size new_capacity new_index_capacity
    new_index_stride m.key_stride m.value_stride
  if alloc new_total_size then
    let fresh : HashMap :=
      { count := 0, capacity := new_capacity,
        index_capacity := new_index_capacity, index_mask := new_index_mask,
        load_factor := m.load_factor, grow_factor := m.grow_factor,
        key_stride := m.key_stride, value_stride := m.value_stride,
        index_stride := new_index_stride,
        indices := List.replicate new_index_capacity new_index_mask,
        keys := List.replicate new_capacity 0,
        values := List.replicate new_capacity 0 }
    (List.range m.count).foldlM
      (fun acc i =>
        Option.map Prod.snd (setf acc (m.keys.getD i 0) (m.values.getD i 0)))
      fresh
  else some m

/-- `hashmap_set` (lines 300–360).  Returns `some (1, m')` for "inserted",
`some (0, m')` for "updated", and `none` when the grow-and-retry recursion
exceeds `fuel` (the C code recurses unboundedly). -/
def hashmap_set (alloc : Nat → Bool) (hash_key : Nat → Nat) :
    Nat → HashMap → Nat → Nat → Option (Nat × HashMap)
  | 0, _, _, _ => none
  | fuel + 1, m, k, v =>
    match hashmap_probe m k (probe_iterations m.count) (hash_key k) with
    | .found _ slot => some (0, { m with values := m.values.set slot v })
    | .available index =>
      if m.capacity ≤ m.count then
        match hashmap_grow_core alloc
            (fun m2 k2 v2 => hashmap_set alloc hash_key fuel m2 k2 v2) m with
        | none => none
        | some m2 => hashmap_set alloc hash_key fuel m2 k v
      else
        some (1, hashmap_insert_at m index k v)
    | .exhausted =>
      match hashmap_grow_core alloc
          (fun m2 k2 v2 => hashmap_set alloc hash_key fuel m2 k2 v2) m with
      | none => none
      | some m2 => hashmap_set alloc hash_key fuel m2 k v

/-- `hashmap_grow` (lines 449–499): `hashmap_grow_core` reinserting through
`hashmap_set` with the given fuel. -/
def hashmap_grow (alloc : Nat → Bool) (hash_key : Nat → Nat) (fuel : Nat)
    (m : HashMap) : Option HashMap :=
  hashmap_grow_core alloc
    (fun m2 k2 v2 => hashmap_set alloc hash_key fuel m2 k2 v2) m

/-- `hashmap_del` (lines 363–445).  Probes like `hashmap_get`; on a found
slot that is not the last live slot, scans the index array for the first
bucket mapping to `count − 1`, repoints it and marks the found bucket
DELETED, then copies the last dense entry over the removed one (so the
returned value pointer, read after the copy, yields the moved entry's
value); on the last slot it just marks the bucket DELETED.  Returns
`(none, m)` untouched on EMPTY/DELETED or counter exhaustion. -/
def hashmap_del (m : HashMap) (k : Nat) (hash_key : Nat → Nat) :
    Option Nat × HashMap :=
  match hashmap_probe m k (probe_iterations m.count) (hash_key k) with
  | .found index slot =>
    let deleted_slot := m.index_mask - 1
    if slot ≠ m.count - 1 then
      match (List.range m.index_capacity).find?
          (fun i => m.indices.getD i 0 = m.count - 1) with
      | some i =>
        let last_slot := m.count - 1
        let indices2 := (m.indices.set i (slot % (m.index_mask + 1))).set index
          (deleted_slot % (m.index_mask + 1))
        let keys2 := m.keys.set slot (m.keys.getD last_slot 0)
        let values2 := m.values.set slot (m.values.getD last_slot 0)
        (some (values2.getD slot 0),
          { m with indices := indices2, keys := keys2, values := values2,
                   count := m.count - 1 })
      | none =>
        let last_slot := m.indices.getD (m.index_capacity - 1) 0
        let keys2 := m.keys.set slot (m.keys.getD last_slot 0)
        let values2 := m.values.set slot (m.values.getD last_slot 0)
        (some (values2.getD slot 0),
          { m with keys := keys2, values := values2, count := m.count - 1 })
    else
      (some (m.values.getD slot 0),
        { m with indices := m.indices.set index (deleted_slot % (m.index_mask + 1)),
                 count := m.count - 1 })
  | _ => (none, m)

/-- `hashmap_new` (lines 212–246): reject a load factor outside
`[0.01, 1.0]` or a zero capacity before allocating; reject allocation
failure; otherwise build the table with every index entry EMPTY. -/
def hashmap_new (alloc : Nat → Bool) (capacity : Nat) (load_factor : ℚ)
    (key_stride value_stride : Nat) : Option HashMap :=
  if load_factor < 1 / 100 ∨ 1 < load_factor ∨ capacity = 0 then none
  else
    let load := Nat.floor (load_factor * 100)
    let grow := 150
    let index_capacity := hashmap_index_capacity capacity load
    let index_mask := hashmap_index_mask index_capacity
    let index_stride := hashmap_index_stride index_capacity
    let total_size := hashmap_total_size capacity index_capacity index_stride
      key_stride value_stride
    if alloc total_size then
      some { count := 0, capacity := capacity,
             index_capacity := index_capacity, index_mask := index_mask,
             load_factor := load, grow_factor := grow,
             key_stride := key_stride, value_stride := value_stride,
             index_stride := index_stride,
             indices := List.replicate index_capacity index_mask,
             keys := List.replicate capacity 0,
             values := List.replicate capacity 0 }
    else none

/-- `hashmap_set_load_factor` (lines 161–168). -/
def hashmap_set_load_factor (m : HashMap) (load_factor : ℚ) : Nat × HashMap :=
  if load_factor < 1 / 100 ∨ 1 < load_factor then (0, m)
  else (1, { m with load_factor := Nat.floor (load_factor * 100) })

/-- `hashmap_set_grow_factor` (lines 170–177). -/
def hashmap_set_grow_factor (m : HashMap) (grow_factor : ℚ) : Nat × HashMap :=
  if grow_factor < 1 / 10 ∨ 5 / 2 < grow_factor then (0, m)
  else (1, { m with grow_factor := Nat.floor (grow_factor * 100) })

/-- `hashmap_count` (lines 188–190). -/
def hashmap_count (m : HashMap) : Nat := m.count

/-- `hashmap_capacity` (lines 192–194). -/
def hashmap_capacity (m : HashMap) : Nat := m.capacity

/-- `hashmap_set` on table `m` never returns, however much fuel the model
grants the grow-and-retry recursion: the C call loops forever. -/
def SetDiverges (alloc : Nat → Bool) (hash_key : Nat → Nat) (m : HashMap)
    (k v : Nat) : Prop :=
  ∀ fuel, hashmap_set alloc hash_key fuel m k v = none

/-! ### Concrete tables used in the claim theorems

The hash function passed to the engine is under the caller's control; the
concrete scenarios use the identity function on `Nat` keys (a legal
`hash_function`, and injective, so distinct keys never share a full hash). -/

/-- An allocator whose every allocation succeeds. -/
def alloc_ok : Nat → Bool := fun _ => true

/-- An allocator whose every allocation fails (returns `NULL`). -/
def alloc_fail : Nat → Bool := fun _ => false

/-- The identity hash function on `Nat` keys. -/
def hash_id : Nat → Nat := fun k => k

/-- Junk default for `Option.getD`; never reached in the chains below
(each step is proved to be `some …`). -/
def map0 : HashMap :=
  { count := 0, capacity := 0, index_capacity := 0, index_mask := 0,
    load_factor := 0, grow_factor := 0, key_stride := 0, value_stride := 0,
    index_stride := 0, indices := [], keys := [], values := [] }

/-- The table `hashmap_new(allocator, 4, 0.75f, 8, 8)` builds:
`index_capacity = round_up_pow2(100·4/75 + 1 = 6) = 8`, one-byte index
entries, mask `0xFF`, all index entries EMPTY (see `mapA_new`). -/
def mapA : HashMap :=
  { count := 0, capacity := 4, index_capacity := 8, index_mask := 0xFF,
    load_factor := 75, grow_factor := 150, key_stride := 8, value_stride := 8,
    index_stride := 1, indices := List.replicate 8 0xFF,
    keys := List.replicate 4 0, values := List.replicate 4 0 }

/-- `mapA` after `Set(16, 101)`: key 16 hashes to bucket `16 & 7 = 0`,
dense slot 0. -/
def mapB : HashMap := ((hashmap_set alloc_ok hash_id 9 mapA 16 101).getD (0, map0)).2

/-- `mapB` after `Set(5, 103)`: bucket 5, dense slot 1. -/
def mapC : HashMap := ((hashmap_set alloc_ok hash_id 9 mapB 5 103).getD (0, map0)).2

/-- `mapC` after `Set(8, 102)`: key 8 also hashes to bucket `8 & 7 = 0`,
probes past the occupied bucket 0 and lands in bucket 1, dense slot 2. -/
def mapD : HashMap := ((hashmap_set alloc_ok hash_id 9 mapC 8 102).getD (0, map0)).2

/-- `mapD` after `Delete(16)`: dense slot 0 is not the last live slot, so
the bucket mapping to slot 2 (bucket 1, key 8's bucket) is repointed to
slot 0, bucket 0 becomes DELETED, and key 8's entry is copied into dense
slot 0.  Key 8's probe chain now starts at the DELETED bucket 0. -/
def mapE : HashMap := (hashmap_del mapD 16 hash_id).2

/-- `mapE` after `Set(8, 999)`: the probe for the still-live key 8 reaches
the DELETED bucket 0 first and inserts a second copy of key 8 there. -/
def mapF : HashMap := ((hashmap_set alloc_ok hash_id 9 mapE 8 999).getD (0, map0)).2

/-- The table `hashmap_new(allocator, 8, 1.0f, 8, 8)` builds:
`index_capacity = round_up_pow2(100·8/100 + 1 = 9) = 16` (see `mapG_new`). -/
def mapG : HashMap :=
  { count := 0, capacity := 8, index_capacity := 16, index_mask := 0xFF,
    load_factor := 100, grow_factor := 150, key_stride := 8, value_stride := 8,
    index_stride := 1, indices := List.replicate 16 0xFF,
    keys := List.replicate 8 0, values := List.replicate 8 0 }

/-- `mapG` after inserting the eight distinct keys `1 … 8` (values
`101 … 108`): the dense array is now full (`count = capacity = 8`). -/
def mapG8 : HashMap :=
  (([1, 2, 3, 4, 5, 6, 7, 8] : List Nat).foldlM
    (fun m k => Option.map Prod.snd (hashmap_set alloc_ok hash_id 3 m k (100 + k)))
    mapG).getD map0

/-- `mapG8` after the ninth insert `Set(9, 109)`, which finds the dense
array full, grows to capacity `8·(100+150)/100 + 1 = 21`
(`index_capacity 32`), reinserts the eight live entries, and retries. -/
def mapG9 : HashMap := ((hashmap_set alloc_ok hash_id 2 mapG8 9 109).getD (0, map0)).2

/-- The table `hashmap_new(allocator, 1, 1.0f, 8, 8)` builds:
`index_capacity = round_up_pow2(100·1/100 + 1 = 2) = 2` (see `mapH_new`). -/
def mapH : HashMap :=
  { count := 0, capacity := 1, index_capacity := 2, index_mask := 0xFF,
    load_factor := 100, grow_factor := 150, key_stride := 8, value_stride := 8,
    index_stride := 1, indices := List.replicate 2 0xFF,
    keys := List.replicate 1 0, values := List.replicate 1 0 }

/-- `mapH` after `Set(1, 11)`: key 1 occupies bucket `1 & 1 = 1`,
dense slot 0; the table is now full (`count = capacity = 1`). -/
def mapH1 : HashMap := ((hashmap_set alloc_ok hash_id 3 mapH 1 11).getD (0, map0)).2

/-! ### List access helpers (byte-array reads/writes became `getD`/`set`) -/

theorem getD_set_self (l : List Nat) (i x : Nat) (h : i < l.length) :
    (l.set i x).getD i 0 = x := by
  induction l generalizing i with
  | nil => simp at h
  | cons a t ih =>
    cases i with
    | zero => simp [List.set, List.getD]
    | succ j =>
      simp only [List.length_cons, Nat.succ_lt_succ_iff] at h
      simpa [List.set, List.getD] using ih j h

theorem getD_set_ne (l : List Nat) (i j x : Nat) (h : i ≠ j) :
    (l.set i x).getD j 0 = l.getD j 0 := by
  induction l generalizing i j with
  | nil => simp [List.set]
  | cons a t ih =>
    cases i with
    | zero =>
      cases j with
      | zero => exact absurd rfl h
      | succ j2 => simp [List.set, List.getD]
    | succ i2 =>
      cases j with
      | zero => simp [List.set, List.getD]
      | succ j2 =>
        have hne : i2 ≠ j2 := fun hh => h (by simp [hh])
        simpa [List.set, List.getD] using ih i2 j2 hne

theorem getD_mem_take (l : List Nat) (c s : Nat) (hs : s < c) (hl : s < l.length) :
    l.getD s 0 ∈ l.take c := by
  induction l generalizing c s with
  | nil => simp at hl
  | cons a t ih =>
    cases c with
    | zero => omega
    | succ c2 =>
      cases s with
      | zero => simp [List.getD]
      | succ s2 =>
        simp only [List.length_cons, Nat.succ_lt_succ_iff] at hl
        have hs2 : s2 < c2 := by omega
        simpa [List.getD] using List.mem_cons_of_mem a (ih c2 s2 hs2 hl)

/-! ### Field bookkeeping for the mutating operations -/

theorem insert_at_count (m : HashMap) (b k v : Nat) :
    (hashmap_insert_at m b k v).count = m.count + 1 := rfl

theorem insert_at_fields (m : HashMap) (b k v : Nat) :
    (hashmap_insert_at m b k v).index_capacity = m.index_capacity ∧
    (hashmap_insert_at m b k v).index_mask = m.index_mask ∧
    (hashmap_insert_at m b k v).capacity = m.capacity ∧
    (hashmap_insert_at m b k v).indices
      = m.indices.set b (m.count % (m.index_mask + 1)) ∧
    (hashmap_insert_at m b k v).keys = m.keys.set m.count k ∧
    (hashmap_insert_at m b k v).values = m.values.set m.count v :=
  ⟨rfl, rfl, rfl, rfl, rfl, rfl⟩

/-! ### Probe loop lemmas -/

/-- The probe only reads the index array, the key array and the two layout
fields; tables equal on those probe identically. -/
theorem hashmap_probe_congr (m m2 : HashMap) (k : Nat)
    (hi : m2.indices = m.indices) (hk : m2.keys = m.keys)
    (hic : m2.index_capacity = m.index_capacity)
    (hm : m2.index_mask = m.index_mask) :
    ∀ t h, hashmap_probe m2 k t h = hashmap_probe m k t h := by
  intro t
  induction t with
  | zero => intro h; rfl
  | succ t ih =>
    intro h
    simp only [hashmap_probe, hi, hk, hic, hm]
    split_ifs <;> simp [ih]

/-- One unfolding of the probe loop body. -/
theorem probe_succ (m : HashMap) (k t h : Nat) :
    hashmap_probe m k (t + 1) h =
      if m.index_mask - 1 ≤ m.indices.getD (h &&& (m.index_capacity - 1)) 0 then
        .available (h &&& (m.index_capacity - 1))
      else if m.keys.getD (m.indices.getD (h &&& (m.index_capacity - 1)) 0) 0 = k then
        .found (h &&& (m.index_capacity - 1))
          (m.indices.getD (h &&& (m.index_capacity - 1)) 0)
      else hashmap_probe m k t ((h + 1) &&& (m.index_capacity - 1)) := rfl

/-- A probe that stops on an available bucket stopped at a bucket that
really holds EMPTY or DELETED, and the bucket number is below
`index_capacity` (it was masked with `index_capacity - 1`). -/
theorem probe_available_entry (m : HashMap) (k : Nat) :
    ∀ t h b, hashmap_probe m k t h = .available b →
      m.index_mask - 1 ≤ m.indices.getD b 0 ∧ b ≤ m.index_capacity - 1 := by
  intro t
  induction t with
  | zero => intro h b hp; cases hp
  | succ t ih =>
    intro h b hp
    rw [probe_succ] at hp
    by_cases h1 : m.index_mask - 1 ≤ m.indices.getD (h &&& (m.index_capacity - 1)) 0
    · rw [if_pos h1] at hp
      cases hp
      exact ⟨h1, Nat.and_le_right⟩
    · rw [if_neg h1] at hp
      by_cases h2 : m.keys.getD (m.indices.getD (h &&& (m.index_capacity - 1)) 0) 0 = k
      · rw [if_pos h2] at hp
        cases hp
      · rw [if_neg h2] at hp
        exact ih _ b hp

/-- A probe that finds a slot found an occupied bucket pointing at a dense
slot holding a key equal to the probed one. -/
theorem probe_found_spec (m : HashMap) (k : Nat) :
    ∀ t h b s, hashmap_probe m k t h = .found b s →
      m.indices.getD b 0 = s ∧ s < m.index_mask - 1 ∧
      m.keys.getD s 0 = k ∧ b ≤ m.index_capacity - 1 := by
  intro t
  induction t with
  | zero => intro h b s hp; cases hp
  | succ t ih =>
    intro h b s hp
    rw [probe_succ] at hp
    by_cases h1 : m.index_mask - 1 ≤ m.indices.getD (h &&& (m.index_capacity - 1)) 0
    · rw [if_pos h1] at hp
      cases hp
    · rw [if_neg h1] at hp
      by_cases h2 : m.keys.getD (m.indices.getD (h &&& (m.index_capacity - 1)) 0) 0 = k
      · rw [if_pos h2] at hp
        cases hp
        exact ⟨rfl, by omega, h2, Nat.and_le_right⟩
      · rw [if_neg h2] at hp
        exact ih _ b s hp

/-- Probing with more iterations cannot change an early-returning result. -/
theorem probe_mono (m : HashMap) (k : Nat) :
    ∀ t t2 h, t ≤ t2 → hashmap_probe m k t h ≠ .exhausted →
      hashmap_probe m k t2 h = hashmap_probe m k t h := by
  intro t
  induction t with
  | zero => intro t2 h _ hne; exact absurd rfl hne
  | succ t ih =>
    intro t2 h hle hne
    obtain ⟨t3, rfl⟩ : ∃ t3, t2 = t3 + 1 := ⟨t2 - 1, by omega⟩
    rw [probe_succ] at hne
    rw [probe_succ m k t3 h, probe_succ m k t h]
    by_cases h1 : m.index_mask - 1 ≤ m.indices.getD (h &&& (m.index_capacity - 1)) 0
    · simp only [if_pos h1]
    · simp only [if_neg h1] at hne ⊢
      by_cases h2 : m.keys.getD (m.indices.getD (h &&& (m.index_capacity - 1)) 0) 0 = k
      · simp only [if_pos h2]
      · simp only [if_neg h2] at hne ⊢
        exact ih t3 _ (by omega) hne

/-- On a well-formed table with no live entries every bucket reads as
available, so any probe stops at its very first bucket. -/
theorem probe_count_zero (m : HashMap) (k : Nat) (hwf : WF m)
    (h0 : m.count = 0) :
    ∀ t h, 1 ≤ t →
      hashmap_probe m k t h = .available (h &&& (m.index_capacity - 1)) := by
  intro t h ht
  obtain ⟨t2, rfl⟩ : ∃ t2, t = t2 + 1 := ⟨t - 1, by omega⟩
  obtain ⟨-, -, -, hic, -, -, hocc⟩ := hwf
  have hb : h &&& (m.index_capacity - 1) < m.index_capacity :=
    lt_of_le_of_lt Nat.and_le_right (by omega)
  have havail : m.index_mask - 1 ≤ m.indices.getD (h &&& (m.index_capacity - 1)) 0 := by
    by_contra hcon
    have := hocc _ hb (by omega)
    omega
  rw [probe_succ, if_pos havail]

/-- Retracing a probe after an insertion: if the probe for `k` stopped at
the available bucket `b`, then after `hashmap_set` writes dense slot
`count` into `b` (and `k` into the key array) the same probe finds `k` at
`b`, in the same number of iterations. -/
theorem probe_insert_retrace (m : HashMap) (k v : Nat) (hwf : WF m)
    (hlt : m.count < m.capacity) :
    ∀ t h b, hashmap_probe m k t h = .available b →
      hashmap_probe (hashmap_insert_at m b k v) k t h = .found b m.count := by
  obtain ⟨hil, hkl, hvl, hic, hcnt, hmask, hocc⟩ := hwf
  intro t
  induction t with
  | zero => intro h b hp; cases hp
  | succ t ih =>
    intro h b hp
    rw [probe_succ] at hp
    have hb : h &&& (m.index_capacity - 1) < m.index_capacity :=
      lt_of_le_of_lt Nat.and_le_right (by omega)
    by_cases h1 : m.index_mask - 1 ≤ m.indices.getD (h &&& (m.index_capacity - 1)) 0
    · rw [if_pos h1] at hp
      cases hp
      obtain ⟨f1, f2, f3, f4, f5, f6⟩ :=
        insert_at_fields m (h &&& (m.index_capacity - 1)) k v
      rw [probe_succ, f1, f2, f4, f5]
      have hbl : h &&& (m.index_capacity - 1) < m.indices.length := by
        rw [hil]; exact hb
      have hmod : m.count % (m.index_mask + 1) = m.count :=
        Nat.mod_eq_of_lt (by omega)
      rw [getD_set_self _ _ _ hbl, hmod]
      rw [if_neg (by omega : ¬ m.index_mask - 1 ≤ m.count)]
      have hkeys : (m.keys.set m.count k).getD m.count 0 = k :=
        getD_set_self _ _ _ (by rw [hkl]; omega)
      rw [hkeys, if_pos rfl]
    · rw [if_neg h1] at hp
      by_cases h2 : m.keys.getD (m.indices.getD (h &&& (m.index_capacity - 1)) 0) 0 = k
      · rw [if_pos h2] at hp
        cases hp
      · rw [if_neg h2] at hp
        have hbne : b ≠ h &&& (m.index_capacity - 1) := by
          intro he
          obtain ⟨hav, -⟩ := probe_available_entry m k t _ b hp
          rw [he] at hav
          omega
        have hslot : m.indices.getD (h &&& (m.index_capacity - 1)) 0 < m.count :=
          hocc _ hb (by omega)
        obtain ⟨f1, f2, f3, f4, f5, f6⟩ := insert_at_fields m b k v
        rw [probe_succ, f1, f2, f4, f5]
        rw [getD_set_ne _ _ _ _ hbne]
        rw [if_neg h1]
        rw [getD_set_ne _ _ _ _ (by omega : m.count ≠ m.indices.getD (h &&& (m.index_capacity - 1)) 0)]
        rw [if_neg h2]
        exact ih _ b hp

/-! ### One non-growing layer of `hashmap_set` -/

/-- Unfolding `hashmap_set` at one layer of fuel. -/
theorem set_succ (alloc : Nat → Bool) (hash_key : Nat → Nat) (fuel : Nat)
    (m : HashMap) (k v : Nat) :
    hashmap_set alloc hash_key (fuel + 1) m k v =
      match hashmap_probe m k (probe_iterations m.count) (hash_key k) with
      | .found _ slot => some (0, { m with values := m.values.set slot v })
      | .available index =>
        if m.capacity ≤ m.count then
          match hashmap_grow_core alloc
              (fun m2 k2 v2 => hashmap_set alloc hash_key fuel m2 k2 v2) m with
          | none => none
          | some m2 => hashmap_set alloc hash_key fuel m2 k v
        else some (1, hashmap_insert_at m index k v)
      | .exhausted =>
        match hashmap_grow_core alloc
            (fun m2 k2 v2 => hashmap_set alloc hash_key fuel m2 k2 v2) m with
        | none => none
        | some m2 => hashmap_set alloc hash_key fuel m2 k v := rfl

/-- A `hashmap_set` that completes within one layer of fuel (that is,
without invoking `hashmap_grow`) either updated a found slot in place or
inserted into an available bucket of a non-full table. -/
theorem set_one_inv (alloc : Nat → Bool) (hash_key : Nat → Nat) (m : HashMap)
    (k v r : Nat) (m2 : HashMap)
    (hset : hashmap_set alloc hash_key 1 m k v = some (r, m2)) :
    (∃ b s, hashmap_probe m k (probe_iterations m.count) (hash_key k) = .found b s ∧
        r = 0 ∧ m2 = { m with values := m.values.set s v }) ∨
    (∃ b, hashmap_probe m k (probe_iterations m.count) (hash_key k) = .available b ∧
        m.count < m.capacity ∧ r = 1 ∧ m2 = hashmap_insert_at m b k v) := by
  rw [show (1 : Nat) = 0 + 1 from rfl, set_succ] at hset
  cases hprobe : hashmap_probe m k (probe_iterations m.count) (hash_key k) with
  | found b s =>
    rw [hprobe] at hset
    have h1 : some (0, ({ m with values := m.values.set s v } : HashMap))
        = some (r, m2) := hset
    injection h1 with h2
    injection h2 with hr hm
    exact Or.inl ⟨b, s, rfl, hr.symm, hm.symm⟩
  | available b =>
    rw [hprobe] at hset
    have h1 : (if m.capacity ≤ m.count then
          (match hashmap_grow_core alloc
              (fun m2 k2 v2 => hashmap_set alloc hash_key 0 m2 k2 v2) m with
            | none => (none : Option (Nat × HashMap))
            | some mm => hashmap_set alloc hash_key 0 mm k v)
        else some (1, hashmap_insert_at m b k v)) = some (r, m2) := hset
    by_cases hfull : m.capacity ≤ m.count
    · rw [if_pos hfull] at h1
      rcases hg : hashmap_grow_core alloc
          (fun m2 k2 v2 => hashmap_set alloc hash_key 0 m2 k2 v2) m with - | mm
      · rw [hg] at h1
        exact Option.noConfusion h1
      · rw [hg] at h1
        exact Option.noConfusion h1
    · rw [if_neg hfull] at h1
      injection h1 with h2
      injection h2 with hr hm
      exact Or.inr ⟨b, rfl, by omega, hr.symm, hm.symm⟩
  | exhausted =>
    rw [hprobe] at hset
    have h1 : (match hashmap_grow_core alloc
          (fun m2 k2 v2 => hashmap_set alloc hash_key 0 m2 k2 v2) m with
        | none => (none : Option (Nat × HashMap))
        | some mm => hashmap_set alloc hash_key 0 mm k v) = some (r, m2) := hset
    rcases hg : hashmap_grow_core alloc
        (fun m2 k2 v2 => hashmap_set alloc hash_key 0 m2 k2 v2) m with - | mm
    · rw [hg] at h1
      exact Option.noConfusion h1
    · rw [hg] at h1
      exact Option.noConfusion h1

/-- Once the probe on `m2` finds `k` at dense slot `s`, `hashmap_get`
returns that slot's value, and a further non-growing `hashmap_set`
overwrites exactly that slot (an "updated" report) after which
`hashmap_get` returns the new value. -/
theorem get_and_update_of_found (alloc : Nat → Bool) (hash_key : Nat → Nat)
    (m2 : HashMap) (k v2 b s : Nat) (hs : s < m2.values.length)
    (H : hashmap_probe m2 k (probe_iterations m2.count) (hash_key k) = .found b s) :
    hashmap_get m2 k hash_key = some (m2.values.getD s 0) ∧
    hashmap_set alloc hash_key 1 m2 k v2
      = some (0, { m2 with values := m2.values.set s v2 }) ∧
    hashmap_get { m2 with values := m2.values.set s v2 } k hash_key = some v2 := by
  refine ⟨?_, ?_, ?_⟩
  · rw [hashmap_get, H]
  · rw [show (1 : Nat) = 0 + 1 from rfl, set_succ, H]
  · have hc : ∀ t h,
        hashmap_probe { m2 with values := m2.values.set s v2 } k t h
          = hashmap_probe m2 k t h :=
      hashmap_probe_congr _ _ _ rfl rfl rfl rfl
    rw [hashmap_get]
    rw [show ({ m2 with values := m2.values.set s v2 } : HashMap).count = m2.count from rfl]
    rw [hc, H]
    show some ((m2.values.set s v2).getD s 0) = some v2
    rw [getD_set_self _ _ _ hs]

/-- Claim C4, amended: a `hashmap_set` completing without invoking
`hashmap_grow` (one layer of fuel) on a well-formed table leaves the table
with `Get(k) = v`; an "updated" report (`0`) leaves `Count` unchanged, an
"inserted" report (`1`) increments it by exactly 1; and a second
`Set(k, v2)` then reports "updated", leaves `Count` unchanged, and gives
`Get(k) = v2`.  (The original claim's "already present ⇒ updated in place,
Count unchanged" is refuted by `claim_C4_cex`: a DELETED bucket earlier on
the key's probe chain captures the insert.) -/
theorem claim_C4 (alloc : Nat → Bool) (hash_key : Nat → Nat) (m : HashMap)
    (k v v2 r : Nat) (m2 : HashMap) (hwf : WF m)
    (hset : hashmap_set alloc hash_key 1 m k v = some (r, m2)) :
    hashmap_get m2 k hash_key = some v ∧
    (r = 0 → m2.count = m.count) ∧
    (r = 1 → m2.count = m.count + 1) ∧
    ∃ m3, hashmap_set alloc hash_key 1 m2 k v2 = some (0, m3) ∧
      m3.count = m2.count ∧ hashmap_get m3 k hash_key = some v2 := by
  have hwfc := hwf
  obtain ⟨hil, hkl, hvl, hic, hcnt, hmask, hocc⟩ := hwfc
  rcases set_one_inv alloc hash_key m k v r m2 hset with
    ⟨b, s, hp, hr, hm2⟩ | ⟨b, hp, hlt, hr, hm2⟩
  · -- the probe found `k`: updated in place
    obtain ⟨hbs, hsocc, hks, hble⟩ := probe_found_spec m k _ _ _ _ hp
    have hscount : s < m.count := by
      have := hocc b (by omega) (by omega)
      omega
    subst hm2
    subst hr
    have hcongr : ∀ t h,
        hashmap_probe ({ m with values := m.values.set s v } : HashMap) k t h
          = hashmap_probe m k t h :=
      hashmap_probe_congr _ _ _ rfl rfl rfl rfl
    have H : hashmap_probe ({ m with values := m.values.set s v } : HashMap) k
        (probe_iterations ({ m with values := m.values.set s v } : HashMap).count)
        (hash_key k) = .found b s := by
      rw [show ({ m with values := m.values.set s v } : HashMap).count = m.count from rfl,
        hcongr, hp]
    have hslen : s < ({ m with values := m.values.set s v } : HashMap).values.length := by
      show s < (m.values.set s v).length
      rw [List.length_set, hvl]
      omega
    obtain ⟨hget, hupd, hget2⟩ := get_and_update_of_found alloc hash_key _ k v2 b s hslen H
    have hv : (m.values.set s v).getD s 0 = v :=
      getD_set_self _ _ _ (by rw [hvl]; omega)
    exact ⟨hget.trans (congrArg some hv), fun _ => rfl,
      fun h1 => absurd h1 (by decide), _, hupd, rfl, hget2⟩
  · -- the probe stopped on an available bucket of a non-full table: inserted
    subst hm2
    subst hr
    have H : hashmap_probe (hashmap_insert_at m b k v) k
        (probe_iterations (hashmap_insert_at m b k v).count) (hash_key k)
          = .found b m.count := by
      have hcins : (hashmap_insert_at m b k v).count = m.count + 1 := rfl
      by_cases h0 : m.count = 0
      · have hb : hashmap_probe m k (probe_iterations m.count) (hash_key k)
            = .available (hash_key k &&& (m.index_capacity - 1)) :=
          probe_count_zero m k hwf h0 _ _
            (by rw [probe_iterations, if_pos h0]; norm_num)
        rw [hb] at hp
        cases hp
        have hp1 : hashmap_probe m k 1 (hash_key k)
            = .available (hash_key k &&& (m.index_capacity - 1)) :=
          probe_count_zero m k hwf h0 1 (hash_key k) le_rfl
        have H1 := probe_insert_retrace m k v hwf hlt 1 (hash_key k) _ hp1
        have hIT : probe_iterations
            (hashmap_insert_at m (hash_key k &&& (m.index_capacity - 1)) k v).count = 1 := by
          rw [hcins, h0]
          rfl
        rw [hIT]
        exact H1
      · have hiterm : probe_iterations m.count = m.count := by
          rw [probe_iterations, if_neg h0]
        have H0 := probe_insert_retrace m k v hwf hlt _ _ b hp
        have hne : hashmap_probe (hashmap_insert_at m b k v) k
            (probe_iterations m.count) (hash_key k) ≠ .exhausted := by
          rw [H0]
          exact fun hx => ProbeResult.noConfusion hx
        have hiters2 : probe_iterations (hashmap_insert_at m b k v).count
            = m.count + 1 := by
          rw [hcins, probe_iterations, if_neg (by omega)]
        rw [hiters2,
          probe_mono (hashmap_insert_at m b k v) k (probe_iterations m.count)
            (m.count + 1) (hash_key k) (by rw [hiterm]; omega) hne]
        exact H0
    have hslen : m.count < (hashmap_insert_at m b k v).values.length := by
      show m.count < (m.values.set m.count v).length
      rw [List.length_set, hvl]
      omega
    obtain ⟨hget, hupd, hget2⟩ :=
      get_and_update_of_found alloc hash_key _ k v2 b m.count hslen H
    have hv : (m.values.set m.count v).getD m.count 0 = v :=
      getD_set_self _ _ _ (by rw [hvl]; omega)
    exact ⟨hget.trans (congrArg some hv), fun h1 => absurd h1 (by decide),
      fun _ => rfl, _, hupd, rfl, hget2⟩

/-! ### Probing for an absent key -/

/-- On a well-formed table, a probe for a key that is not among the live
dense keys `keys[0 .. count)` can never report `found`: every occupied
bucket it can stop at points into the live prefix, whose keys all differ
from `k`. -/
theorem probe_absent_not_found (m : HashMap) (k : Nat) (hwf : WF m)
    (habs : k ∉ m.keys.take m.count) :
    ∀ t h b s, hashmap_probe m k t h ≠ .found b s := by
  intro t h b s hp
  have hwfc := hwf
  obtain ⟨hil, hkl, hvl, hic, hcnt, hmask, hocc⟩ := hwfc
  obtain ⟨hbs, hsocc, hks, hble⟩ := probe_found_spec m k t h b s hp
  have hscount : s < m.count := by
    have := hocc b (by omega) (by omega)
    omega
  apply habs
  rw [← hks]
  exact getD_mem_take m.keys m.count s hscount (by rw [hkl]; omega)

/-- Claim C10: deleting an absent key is atomic on miss — `hashmap_del`
returns the null signal and the table (count, capacity, every index entry
including DELETED sentinels, all keys and values) is exactly the table
passed in. -/
theorem claim_C10 (m : HashMap) (k : Nat) (hash_key : Nat → Nat)
    (hwf : WF m) (habs : k ∉ m.keys.take m.count) :
    hashmap_del m k hash_key = (none, m) := by
  cases hprobe : hashmap_probe m k (probe_iterations m.count) (hash_key k) with
  | found b s => exact absurd hprobe (probe_absent_not_found m k hwf habs _ _ b s)
  | available b =>
    unfold hashmap_del
    rw [hprobe]
  | exhausted =>
    unfold hashmap_del
    rw [hprobe]

/-! ### Correctness of the power-of-two rounding (`round_up_to_nearest_power_of_2`) -/

theorem cover_one (x : Nat) :
    ∀ i, x.testBit i = true ↔ ∃ j, j < 1 ∧ x.testBit (i + j) = true := by
  intro i
  constructor
  · intro h
    exact ⟨0, Nat.zero_lt_one, by simpa using h⟩
  · rintro ⟨j, hj, hb⟩
    obtain rfl : j = 0 := by omega
    simpa using hb

/-- One `v |= v >> s` step doubles the window of source bits that can set
each result bit. -/
theorem cover_step (x y s : Nat)
    (hy : ∀ i, y.testBit i = true ↔ ∃ j, j < s ∧ x.testBit (i + j) = true) :
    ∀ i, (y ||| y >>> s).testBit i = true ↔
      ∃ j, j < 2 * s ∧ x.testBit (i + j) = true := by
  intro i
  rw [Nat.testBit_or, Nat.testBit_shiftRight]
  constructor
  · intro h
    rcases (Bool.or_eq_true _ _).mp h with h1 | h2
    · obtain ⟨j, hj, hb⟩ := (hy i).mp h1
      exact ⟨j, by omega, hb⟩
    · obtain ⟨j, hj, hb⟩ := (hy (s + i)).mp h2
      refine ⟨s + j, by omega, ?_⟩
      rw [show i + (s + j) = s + i + j from by omega]
      exact hb
  · rintro ⟨j, hj, hb⟩
    apply (Bool.or_eq_true _ _).mpr
    by_cases hjs : j < s
    · exact Or.inl ((hy i).mpr ⟨j, hjs, hb⟩)
    · refine Or.inr ((hy (s + i)).mpr ⟨j - s, by omega, ?_⟩)
      rw [show s + i + (j - s) = i + j from by omega]
      exact hb

/-- Bit `i` of `bit_smear x` is set iff one of the 64 source bits
`i, i+1, …, i+63` is set. -/
theorem bit_smear_testBit (x : Nat) :
    ∀ i, (bit_smear x).testBit i = true ↔
      ∃ j, j < 64 ∧ x.testBit (i + j) = true := by
  have c2 := cover_step x x 1 (cover_one x)
  have c4 := cover_step x _ 2 c2
  have c8 := cover_step x _ 4 c4
  have c16 := cover_step x _ 8 c8
  have c32 := cover_step x _ 16 c16
  have c64 := cover_step x _ 32 c32
  exact c64

/-- For inputs below `2^64` the smear fills exactly the bits below the
most significant set bit: the result is `2^size − 1`. -/
theorem bit_smear_eq (x : Nat) (hx : x < 2 ^ 64) :
    bit_smear x = 2 ^ x.size - 1 := by
  apply Nat.eq_of_testBit_eq
  intro i
  rw [Nat.testBit_two_pow_sub_one]
  by_cases hi : i < x.size
  · have h2i : 2 ^ i ≤ x := Nat.lt_size.mp hi
    obtain ⟨p, hpi, hpb⟩ := Nat.ge_two_pow_implies_high_bit_true h2i
    have hp64 : p < 64 := by
      have hge := Nat.testBit_implies_ge hpb
      by_contra hcon
      have hmono : (2 : Nat) ^ 64 ≤ 2 ^ p :=
        Nat.pow_le_pow_right (by norm_num) (by omega)
      omega
    have hLt : (bit_smear x).testBit i = true :=
      (bit_smear_testBit x i).mpr
        ⟨p - i, by omega, by rw [show i + (p - i) = p from by omega]; exact hpb⟩
    rw [hLt]
    simp [hi]
  · have hcontra : ∀ hb : (bit_smear x).testBit i = true, False := by
      intro hb
      obtain ⟨j, hj, hbj⟩ := (bit_smear_testBit x i).mp hb
      have hge := Nat.testBit_implies_ge hbj
      have h2 : (2 : Nat) ^ i ≤ 2 ^ (i + j) :=
        Nat.pow_le_pow_right (by norm_num) (by omega)
      exact hi (Nat.lt_size.mpr (by omega))
    cases hb : (bit_smear x).testBit i
    · simp [hi]
    · exact absurd hb (fun hb2 => hcontra hb2)

/-- For `1 ≤ v ≤ 2^63` the rounding routine returns `2 ^ size (v−1)`:
a power of two, and at least `v`. -/
theorem rup2_spec (v : Nat) (h1 : 1 ≤ v) (h2 : v ≤ 2 ^ 63) :
    round_up_to_nearest_power_of_2 v = 2 ^ (v - 1).size ∧
      v ≤ 2 ^ (v - 1).size := by
  have e64 : (2 : Nat) ^ 64 = 18446744073709551616 := by norm_num
  have e63 : (2 : Nat) ^ 63 = 9223372036854775808 := by norm_num
  have hd : (v + (2 ^ 64 - 1)) % 2 ^ 64 = v - 1 := by
    rw [e64]
    rw [e63] at h2
    omega
  have hy : v - 1 < 2 ^ 64 := by
    rw [e64]
    rw [e63] at h2
    omega
  have hsz : (v - 1).size ≤ 63 := by
    apply Nat.size_le.mpr
    rw [e63]
    rw [e63] at h2
    omega
  have hvle : v ≤ 2 ^ (v - 1).size := by
    have := Nat.lt_size_self (v - 1)
    omega
  refine ⟨?_, hvle⟩
  rw [round_up_to_nearest_power_of_2, hd, bit_smear_eq _ hy]
  have hpos : 1 ≤ 2 ^ (v - 1).size := Nat.one_le_two_pow
  have hstep : 2 ^ (v - 1).size - 1 + 1 = 2 ^ (v - 1).size := by omega
  rw [hstep]
  apply Nat.mod_eq_of_lt
  have hmono : (2 : Nat) ^ (v - 1).size ≤ 2 ^ 63 :=
    Nat.pow_le_pow_right (by norm_num) hsz
  omega

/-! ### The integer layout formulas agree with the exact-rational reading
of the C code's float formulas -/

/-- `hashmap_grow_capacity` equals
`ceil((grow_factor / 100.0f + 1.0f) * capacity)` with the code's
`ceil(x) = (size_t)x + 1`, read in exact arithmetic. -/
theorem hashmap_grow_capacity_models_float (capacity grow_factor : Nat) :
    hashmap_grow_capacity capacity grow_factor
      = Nat.floor (((grow_factor : ℚ) / 100 + 1) * capacity) + 1 := by
  rw [hashmap_grow_capacity]
  congr 1
  have h : ((grow_factor : ℚ) / 100 + 1) * capacity
      = ((capacity * (100 + grow_factor) : ℕ) : ℚ) / ((100 : ℕ) : ℚ) := by
    push_cast
    ring
  rw [h, Nat.floor_div_nat, Nat.floor_natCast]

/-- `hashmap_index_capacity` equals
`round_up_to_nearest_power_of_2(ceil((100.0f / load_factor) * capacity))`
with the code's `ceil(x) = (size_t)x + 1`, read in exact arithmetic. -/
theorem hashmap_index_capacity_models_float (capacity load_factor : Nat) :
    hashmap_index_capacity capacity load_factor
      = round_up_to_nearest_power_of_2
          (Nat.floor ((100 / (load_factor : ℚ)) * capacity) + 1) := by
  rw [hashmap_index_capacity]
  congr 2
  have h : (100 / (load_factor : ℚ)) * capacity
      = ((100 * capacity : ℕ) : ℚ) / ((load_factor : ℕ) : ℚ) := by
    push_cast
    ring
  rw [h, Nat.floor_div_nat, Nat.floor_natCast]

/-! ### `hashmap_new` builds exactly the concrete start tables -/

theorem mapA_new : hashmap_new alloc_ok 4 (3 / 4) 8 8 = some mapA := by
  rw [hashmap_new]
  norm_num
  constructor <;> decide

theorem mapG_new : hashmap_new alloc_ok 8 1 8 8 = some mapG := by
  rw [hashmap_new]
  norm_num
  constructor <;> decide

theorem mapH_new : hashmap_new alloc_ok 1 1 8 8 = some mapH := by
  rw [hashmap_new]
  norm_num
  constructor <;> decide

/-! ### The claim theorems -/

/-- Claim C1 (code bug, concrete run): in the table built by
`New(4, 0.75)` and `Set(16,101); Set(5,103); Set(8,102)` (keys 16 and 8
share bucket 0, so 8 lives in bucket 1), `Get(8) = 102` holds; after
`Delete(16)` the key 8 is still live (it is in the dense key prefix) and
its probe chain starts at bucket 0, which now holds the DELETED sentinel —
and `Get(8)` returns absent, because `hashmap_get` stops on DELETED
instead of probing past it. -/
theorem claim_C1 :
    hashmap_new alloc_ok 4 (3 / 4) 8 8 = some mapA ∧
    hashmap_set alloc_ok hash_id 9 mapA 16 101 = some (1, mapB) ∧
    hashmap_set alloc_ok hash_id 9 mapB 5 103 = some (1, mapC) ∧
    hashmap_set alloc_ok hash_id 9 mapC 8 102 = some (1, mapD) ∧
    hashmap_get mapD 8 hash_id = some 102 ∧
    hashmap_del mapD 16 hash_id = (some 102, mapE) ∧
    8 ∈ mapE.keys.take mapE.count ∧
    mapE.indices.getD 0 0 = mapE.index_mask - 1 ∧
    hashmap_get mapE 8 hash_id = none :=
  ⟨mapA_new, by decide⟩

/-- Claim C2 (code bug, concrete run): in the table with
`Set(16,101); Set(5,103)` (key 16 at dense slot 0, key 5 at dense slot 1),
the value associated with 16 is 101, yet `Delete(16)` — a deletion whose
found slot 0 is not the last live slot, so the compaction step runs —
returns 103 (the value of the moved last entry, which overwrote slot 0
before the return), not the removed value 101. -/
theorem claim_C2 :
    hashmap_new alloc_ok 4 (3 / 4) 8 8 = some mapA ∧
    hashmap_set alloc_ok hash_id 9 mapA 16 101 = some (1, mapB) ∧
    hashmap_set alloc_ok hash_id 9 mapB 5 103 = some (1, mapC) ∧
    hashmap_get mapC 16 hash_id = some 101 ∧
    (hashmap_del mapC 16 hash_id).1 = some 103 ∧
    (hashmap_del mapC 16 hash_id).1 ≠ some 101 :=
  ⟨mapA_new, by decide⟩

/-- Claim C3 (code bug, concrete run): after `Delete(16)` on the table of
`claim_C1`, `Get(16)` is absent and `Count` drops by exactly 1, but the
other present key 8 — repointed by the compaction to dense slot 0 —
is no longer found by `Get`: its lookup flips from `some 102` to absent,
because its probe chain crosses the new DELETED bucket and `hashmap_get`
stops there. -/
theorem claim_C3 :
    hashmap_new alloc_ok 4 (3 / 4) 8 8 = some mapA ∧
    hashmap_set alloc_ok hash_id 9 mapA 16 101 = some (1, mapB) ∧
    hashmap_set alloc_ok hash_id 9 mapB 5 103 = some (1, mapC) ∧
    hashmap_set alloc_ok hash_id 9 mapC 8 102 = some (1, mapD) ∧
    hashmap_get mapD 8 hash_id = some 102 ∧
    hashmap_del mapD 16 hash_id = (some 102, mapE) ∧
    hashmap_get mapE 16 hash_id = none ∧
    mapE.count + 1 = mapD.count ∧
    8 ∈ mapE.keys.take mapE.count ∧
    hashmap_get mapE 8 hash_id = none :=
  ⟨mapA_new, by decide⟩

/-- Counterexample to claim C4 as stated: key 8 is present in `mapE`
(it is in the live dense prefix), yet `Set(8, 999)` reports "inserted"
(`1`) and increments `Count` — the probe reaches the DELETED bucket 0 on
8's chain first and inserts a duplicate there, instead of overwriting in
place with an "updated" report and unchanged `Count`. -/
theorem claim_C4_cex :
    8 ∈ mapE.keys.take mapE.count ∧
    hashmap_set alloc_ok hash_id 9 mapE 8 999 = some (1, mapF) ∧
    mapF.count = mapE.count + 1 := by
  decide

theorem claim_C4_witness :
    WF mapA ∧
    hashmap_set alloc_ok hash_id 1 mapA 16 101 = some (1, mapB) ∧
    hashmap_get mapB 16 hash_id = some 101 :=
  ⟨by decide, by decide,
    (claim_C4 alloc_ok hash_id mapA 16 101 202 1 mapB (by decide) (by decide)).1⟩

/-- Claim C5, amended (the original "Set always terminates" is refuted by
`claim_C5_cex`): the concrete scenario of the spec — a table of capacity 8
and load factor 1.0, nine distinct keys (1 … 9 with the identity hash) —
completes: the first eight inserts fill the dense array, the ninth cannot
complete without growing (with fuel for zero Grow invocations it returns
the out-of-fuel marker), and with fuel for one Grow it completes, yielding
capacity 21 > 8 and count 9. -/
theorem claim_C5 :
    hashmap_new alloc_ok 8 1 8 8 = some mapG ∧
    (([1, 2, 3, 4, 5, 6, 7, 8] : List Nat).foldlM
      (fun m k => Option.map Prod.snd (hashmap_set alloc_ok hash_id 3 m k (100 + k)))
      mapG) = some mapG8 ∧
    mapG8.count = 8 ∧ mapG8.capacity = 8 ∧
    hashmap_set alloc_ok hash_id 1 mapG8 9 109 = none ∧
    hashmap_set alloc_ok hash_id 2 mapG8 9 109 = some (1, mapG9) ∧
    mapG9.capacity = 21 ∧ 8 < mapG9.capacity ∧ mapG9.count = 9 :=
  ⟨mapG_new, by decide⟩

/-- Counterexample to claim C5 as stated: `Set` does **not** always
terminate.  In the full table `mapH1` (capacity 1, key 1 live), a `Set` of
the colliding key 3 exhausts its probe counter, invokes `Grow`, and — with
the allocator failing, as `hashmap_grow` silently aborts — retries on the
identical table forever: for every amount of fuel the model returns the
out-of-fuel marker. -/
theorem claim_C5_cex :
    hashmap_new alloc_ok 1 1 8 8 = some mapH ∧
    hashmap_set alloc_ok hash_id 3 mapH 1 11 = some (1, mapH1) ∧
    SetDiverges alloc_fail hash_id mapH1 3 999 := by
  refine ⟨mapH_new, by decide, ?_⟩
  intro fuel
  induction fuel with
  | zero => rfl
  | succ n ih =>
    rw [set_succ]
    have h1 : hashmap_probe mapH1 3 (probe_iterations mapH1.count) (hash_id 3)
        = .exhausted := by decide
    rw [h1]
    exact ih

/-- Claim C6, amended: the code's `ceil` is floor-plus-one, so
`hashmap_grow_capacity` computes `⌊capacity · (1 + grow_factor/100)⌋ + 1`
(not the mathematical ceiling); for capacity 8 and grow factor 100 this
gives 17, not the claimed 16. -/
theorem claim_C6 :
    (∀ capacity grow_factor : Nat,
      hashmap_grow_capacity capacity grow_factor
        = Nat.floor (((grow_factor : ℚ) / 100 + 1) * capacity) + 1) ∧
    hashmap_grow_capacity 8 100 = 17 :=
  ⟨hashmap_grow_capacity_models_float, by decide⟩

/-- Counterexample to claim C6 as stated: at capacity 8 with grow factor
100 the code yields 17, not the mathematical ceiling
`ceil(8 · (1 + 100/100)) = 16` the claim (and its own example) states. -/
theorem claim_C6_cex :
    hashmap_grow_capacity 8 100 ≠ 16 ∧ hashmap_grow_capacity 8 100 = 17 := by
  decide

/-- Claim C7: for every capacity `≥ 1` (bounded so that the 64-bit
rounding cannot wrap) and load factor percentage in `[1, 100]`,
`hashmap_index_capacity` is a power of two, strictly exceeds
`capacity · 100 / load_factor`, and is computed as
`round_up_pow2(ceil(100/load_factor · capacity))` with the code's
`ceil = floor + 1`. -/
theorem claim_C7 (capacity load_factor : Nat) (h1 : 1 ≤ capacity)
    (h2 : capacity ≤ 2 ^ 56) (h3 : 1 ≤ load_factor) (h4 : load_factor ≤ 100) :
    (∃ j, hashmap_index_capacity capacity load_factor = 2 ^ j) ∧
    ((capacity : ℚ) * 100 / load_factor
      < (hashmap_index_capacity capacity load_factor : ℚ)) ∧
    hashmap_index_capacity capacity load_factor
      = round_up_to_nearest_power_of_2
          (Nat.floor ((100 / (load_factor : ℚ)) * capacity) + 1) := by
  have hx1 : 1 ≤ 100 * capacity / load_factor + 1 := Nat.le_add_left 1 _
  have hx2 : 100 * capacity / load_factor + 1 ≤ 2 ^ 63 := by
    have hd : 100 * capacity / load_factor ≤ 100 * capacity :=
      Nat.div_le_self _ _
    have hm : 100 * capacity ≤ 100 * 2 ^ 56 :=
      Nat.mul_le_mul_left 100 h2
    have e63 : (2 : Nat) ^ 63 = 9223372036854775808 := by norm_num
    have e56 : (2 : Nat) ^ 56 = 72057594037927936 := by norm_num
    rw [e63]
    rw [e56] at hm
    omega
  obtain ⟨hpow, hge⟩ := rup2_spec _ hx1 hx2
  refine ⟨⟨(100 * capacity / load_factor + 1 - 1).size, ?_⟩, ?_,
    hashmap_index_capacity_models_float capacity load_factor⟩
  · rw [hashmap_index_capacity]
    exact hpow
  · have hlfq : (0 : ℚ) < load_factor := by
      exact_mod_cast Nat.lt_of_lt_of_le Nat.zero_lt_one h3
    have hnat : 100 * capacity < (100 * capacity / load_factor + 1) * load_factor :=
      (Nat.div_lt_iff_lt_mul (by omega)).mp (Nat.lt_succ_self _)
    have hlt : (capacity : ℚ) * 100 / load_factor
        < ((100 * capacity / load_factor + 1 : Nat) : ℚ) := by
      rw [div_lt_iff₀ hlfq]
      calc (capacity : ℚ) * 100 = ((100 * capacity : Nat) : ℚ) := by
            push_cast
            ring
        _ < (((100 * capacity / load_factor + 1) * load_factor : Nat) : ℚ) := by
            exact_mod_cast hnat
        _ = ((100 * capacity / load_factor + 1 : Nat) : ℚ) * load_factor := by
            push_cast
            ring
    have hnat2 : 100 * capacity / load_factor + 1
        ≤ hashmap_index_capacity capacity load_factor := by
      rw [hashmap_index_capacity, hpow]
      exact hge
    calc (capacity : ℚ) * 100 / load_factor
        < ((100 * capacity / load_factor + 1 : Nat) : ℚ) := hlt
      _ ≤ (hashmap_index_capacity capacity load_factor : ℚ) := by
            exact_mod_cast hnat2

theorem claim_C7_witness :
    (∃ j, hashmap_index_capacity 8 100 = 2 ^ j) ∧
    (((8 : Nat) : ℚ) * 100 / ((100 : Nat) : ℚ)
      < (hashmap_index_capacity 8 100 : ℚ)) ∧
    hashmap_index_capacity 8 100
      = round_up_to_nearest_power_of_2
          (Nat.floor ((100 / ((100 : Nat) : ℚ)) * ((8 : Nat) : ℚ)) + 1) :=
  claim_C7 8 100 (by norm_num) (by norm_num) (by norm_num) (by norm_num)

/-- Claim C8: `hashmap_set_load_factor` accepts exactly the load factors
in `[0.01, 1.0]` and `hashmap_set_grow_factor` exactly the grow factors in
`[0.10, 2.50]`; every rejected call returns 0 and the very table it was
given, unchanged. -/
theorem claim_C8 (m : HashMap) (f g : ℚ) :
    ((hashmap_set_load_factor m f).1 = 1 ↔ 1 / 100 ≤ f ∧ f ≤ 1) ∧
    ((hashmap_set_load_factor m f).1 ≠ 1 → hashmap_set_load_factor m f = (0, m)) ∧
    ((hashmap_set_grow_factor m g).1 = 1 ↔ 1 / 10 ≤ g ∧ g ≤ 5 / 2) ∧
    ((hashmap_set_grow_factor m g).1 ≠ 1 → hashmap_set_grow_factor m g = (0, m)) := by
  refine ⟨?_, ?_, ?_, ?_⟩
  · unfold hashmap_set_load_factor
    split_ifs with h
    · constructor
      · intro h0
        exact absurd h0 (by decide)
      · rintro ⟨hl, hr⟩
        rcases h with h | h
        · linarith
        · linarith
    · constructor
      · intro _
        push_neg at h
        exact ⟨h.1, h.2⟩
      · intro _
        rfl
  · unfold hashmap_set_load_factor
    split_ifs with h
    · intro _
      rfl
    · intro hne
      exact absurd rfl hne
  · unfold hashmap_set_grow_factor
    split_ifs with h
    · constructor
      · intro h0
        exact absurd h0 (by decide)
      · rintro ⟨hl, hr⟩
        rcases h with h | h
        · linarith
        · linarith
    · constructor
      · intro _
        push_neg at h
        exact ⟨h.1, h.2⟩
      · intro _
        rfl
  · unfold hashmap_set_grow_factor
    split_ifs with h
    · intro _
      rfl
    · intro hne
      exact absurd rfl hne

theorem claim_C8_witness :
    hashmap_set_load_factor mapA 0 = (0, mapA) ∧
    hashmap_set_load_factor mapA (3 / 2) = (0, mapA) ∧
    hashmap_set_grow_factor mapA 0 = (0, mapA) ∧
    hashmap_set_grow_factor mapA 3 = (0, mapA) ∧
    (hashmap_set_load_factor mapA (3 / 4)).1 = 1 := by
  obtain ⟨hA1, hA2, hA3, hA4⟩ := claim_C8 mapA 0 0
  obtain ⟨hB1, hB2, hB3, hB4⟩ := claim_C8 mapA (3 / 2) 3
  obtain ⟨hC1, -, -, -⟩ := claim_C8 mapA (3 / 4) 0
  refine ⟨hA2 ?_, hB2 ?_, hA4 ?_, hB4 ?_, hC1.mpr ⟨by norm_num, by norm_num⟩⟩
  · intro hcon
    have hc := (hA1.mp hcon).1
    norm_num at hc
  · intro hcon
    have hc := (hB1.mp hcon).2
    norm_num at hc
  · intro hcon
    have hc := (hA3.mp hcon).1
    norm_num at hc
  · intro hcon
    have hc := (hB3.mp hcon).2
    norm_num at hc

/-- Claim C9: with a failing allocator, `hashmap_grow` is a no-op
returning the very table it was given, and `hashmap_new` returns the null
handle; `hashmap_new` also returns the null handle — for every allocator,
without consulting it — when the capacity is 0 or the load factor lies
outside `[0.01, 1.0]`. -/
theorem claim_C9 (alloc : Nat → Bool) (hash_key : Nat → Nat) (fuel : Nat)
    (m : HashMap) (capacity : Nat) (lf : ℚ) (ks vs : Nat)
    (hfail : ∀ n, alloc n = false) :
    hashmap_grow alloc hash_key fuel m = some m ∧
    hashmap_new alloc capacity lf ks vs = none ∧
    (∀ alloc2 : Nat → Bool, capacity = 0 ∨ lf < 1 / 100 ∨ 1 < lf →
      hashmap_new alloc2 capacity lf ks vs = none) := by
  refine ⟨?_, ?_, ?_⟩
  · rw [hashmap_grow, hashmap_grow_core]
    simp [hfail]
  · rw [hashmap_new]
    split_ifs with h
    · rfl
    · simp [hfail]
  · intro alloc2 hbad
    rw [hashmap_new]
    have hcond : lf < 1 / 100 ∨ 1 < lf ∨ capacity = 0 := by tauto
    rw [if_pos hcond]

theorem claim_C9_witness :
    hashmap_grow alloc_fail hash_id 5 mapH1 = some mapH1 ∧
    hashmap_new alloc_fail 4 (3 / 4) 8 8 = none ∧
    hashmap_new alloc_ok 0 (3 / 4) 8 8 = none := by
  obtain ⟨h1, h2, -⟩ :=
    claim_C9 alloc_fail hash_id 5 mapH1 4 (3 / 4) 8 8 (fun n => rfl)
  obtain ⟨-, -, h3⟩ :=
    claim_C9 alloc_fail hash_id 5 mapH1 0 (3 / 4) 8 8 (fun n => rfl)
  exact ⟨h1, h2, h3 alloc_ok (Or.inl rfl)⟩

theorem claim_C10_witness :
    WF mapE ∧ 7 ∉ mapE.keys.take mapE.count ∧
    hashmap_del mapE 7 hash_id = (none, mapE) :=
  ⟨by decide, by decide, claim_C10 mapE 7 hash_id (by decide) (by decide)⟩

end TkbMap
